import Mathlib

/-!
Verification of the core of `clippy-tracing` (`src/clippy-tracing/src/main.rs`),
a tool that checks for, inserts, and removes `tracing::instrument` attributes on
Rust functions.

The embedding works at the granularity the Rust code itself works at: a file is
the list of its physical lines (the Rust code immediately does
`text.split('\n')`), and the syntax tree is a tree of function-like items with
the exact fields the visitors consult (attribute list, constness, inputs, span
start line/column, nested body items).  Spans use 1-based lines and 0-based
columns, as produced by `proc_macro2` and consumed by the code.
-/

namespace Clippy

/-- Mirror of `syn::Meta` restricted to what the code inspects: the path
segments of the attribute and which of the three shapes it has
(`Meta::List` is call-style `#[p(...)]`, `Meta::Path` is a bare marker `#[p]`,
`Meta::NameValue` is `#[p = v]`). -/
inductive Meta where
  | list (segments : List String)
  | path (segments : List String)
  | nameValue
deriving DecidableEq, Repr

/-- Mirror of `syn::Attribute`: its meta plus the lines of its span
(1-based, as `proc_macro2` reports; only lines are used, by `StripVisitor`). -/
structure Attr where
  meta : Meta
  startLine : Nat
  endLine : Nat
deriving DecidableEq, Repr

/-- Mirror of `syn::Member`: a named or positional (unnamed) struct field. -/
inductive Member where
  | named (name : String)
  | unnamed
deriving DecidableEq, Repr

/-- Mirror of the `syn::Pat` forms distinguished by `instrument`:
`Pat::Ident`, `Pat::Struct`, and everything else. -/
inductive Pat where
  | ident (name : String)
  | structP (fields : List Member)
  | other
deriving DecidableEq, Repr

/-- Mirror of `syn::FnArg`: a receiver (`self`) or a typed pattern. -/
inductive FnArg where
  | receiver
  | typed (pat : Pat)
deriving DecidableEq, Repr

/-- Mirror of the syntax tree as the three visitors traverse it.
`fn` covers both `syn::ItemFn` and `syn::ImplItemFn` (the visitor code for the
two is identical); it carries the attribute list, whether the signature is
`const`, the inputs, the span start (1-based line, 0-based column, attributes
included, as `i.span().start()` reports), and the items nested in its block.
`implBlock` and `modDecl` are containers whose children are visited in order;
`other` is any item the visitors do not descend into for functions. -/
inductive Item where
  | fn (attrs : List Attr) (isConst : Bool) (inputs : List FnArg)
       (line : Nat) (col : Nat) (body : List Item)
  | implBlock (fns : List Item)
  | modDecl (items : List Item)
  | other

/-- Mirror of `Desc`: the three booleans `check_attributes` computes. -/
structure Desc where
  instrumented : Bool
  skipped : Bool
  test : Bool
deriving DecidableEq, Repr

/-- `path.segments.last()` on our representation of a path. -/
def pathLast (segments : List String) : Option String :=
  segments.getLast?

/-- The `instrumented` match in `check_attributes` (also the predicate of
`find_instrumented`): `Meta::List` or `Meta::Path` whose last segment is
`instrument`; `Meta::NameValue` never matches. -/
def matchInstrument (m : Meta) : Bool :=
  match m with
  | .list segments => pathLast segments == some "instrument"
  | .path segments => pathLast segments == some "instrument"
  | .nameValue => false

/-- The `test` match in `check_attributes`: `Meta::List` whose last segment is
`proof`, or `Meta::Path` whose last segment is `test` or `proof`. -/
def matchTest (m : Meta) : Bool :=
  match m with
  | .list segments => pathLast segments == some "proof"
  | .path segments => pathLast segments == some "test" || pathLast segments == some "proof"
  | .nameValue => false

/-- The `skipped` match in `check_attributes`: `Meta::List` or `Meta::Path`
whose last segment is `clippy_tracing_skip`. -/
def matchSkip (m : Meta) : Bool :=
  match m with
  | .list segments => pathLast segments == some "clippy_tracing_skip"
  | .path segments => pathLast segments == some "clippy_tracing_skip"
  | .nameValue => false

/-- Mirror of `check_attributes`: fold over the attribute list, each attribute
possibly setting each of the three flags. -/
def check_attributes (attrs : List Attr) : Desc :=
  attrs.foldl
    (fun d a =>
      { instrumented := d.instrumented || matchInstrument a.meta
        skipped := d.skipped || matchSkip a.meta
        test := d.test || matchTest a.meta })
    ⟨false, false, false⟩

/-- Mirror of `find_instrumented`: the first attribute matching the
`instrument` predicate, if any. -/
def find_instrumented (attrs : List Attr) : Option Attr :=
  attrs.find? (fun a => matchInstrument a.meta)

/-- The eligibility condition appearing verbatim in `CheckVisitor` and
`FixVisitor`:
`!attr.instrumented && !attr.skipped && !attr.test && i.sig.constness.is_none()`. -/
def eligible (attrs : List Attr) (isConst : Bool) : Bool :=
  let d := check_attributes attrs
  !d.instrumented && !d.skipped && !d.test && !isConst

/-- The argument-name extraction inside `instrument`: receiver contributes
`self`; `Pat::Ident` contributes its identifier; `Pat::Struct` contributes its
named fields (positional fields skipped); any other pattern contributes
nothing. -/
def argNames (inputs : List FnArg) : List String :=
  inputs.flatMap fun arg =>
    match arg with
    | .receiver => ["self"]
    | .typed pat =>
      match pat with
      | .ident name => [name]
      | .structP fields =>
        fields.filterMap fun f =>
          match f with
          | .named name => some name
          | .unnamed => none
      | .other => []

/-- Mirror of `itertools::intersperse(iter, sep).collect::<String>()`. -/
def joinWith (sep : String) : List String → String
  | [] => ""
  | [x] => x
  | x :: y :: rest => x ++ sep ++ joinWith sep (y :: rest)

/-- Joining lines with newlines, as every serializer in the file does. -/
def joinL (lines : List String) : String :=
  joinWith "\n" lines

/-- Mirror of `instrument`: the synthesized attribute text. -/
def instrument (inputs : List FnArg) : String :=
  "#[tracing::instrument(level = \"trace\", skip(" ++
    joinWith ", " (argNames inputs) ++ "))]"

/-- Mirror of `" ".repeat(indent)`. -/
def spaces (n : Nat) : String :=
  String.mk (List.replicate n ' ')

/-- Mirror of `SegmentedList`: the slot before the first line, then each
original line paired with the slot after it. -/
structure SegmentedList where
  first : String
  inner : List (String × String)
deriving DecidableEq, Repr

/-- Write `text` into the second component of entry `i` (mirror of
`self.inner.get_mut(i)` followed by `*s = text`). -/
def setSnd : List (String × String) → Nat → String → List (String × String)
  | [], _, _ => []
  | p :: rest, 0, text => (p.1, text) :: rest
  | p :: rest, Nat.succ i, text => p :: setSnd rest i text

/-- Mirror of `SegmentedList::set_before`: `line.checked_sub(1)` selects
`first` when `line = 0`, otherwise entry `line - 1`; out of range returns
`false` and changes nothing; otherwise the slot is overwritten and `true`
returned. -/
def set_before (l : SegmentedList) (line : Nat) (text : String) :
    SegmentedList × Bool :=
  match line with
  | 0 => (⟨text, l.inner⟩, true)
  | Nat.succ i =>
    if i < l.inner.length then (⟨l.first, setSnd l.inner i text⟩, true)
    else (l, false)

/-- Mirror of `From<SegmentedList> for String`: each pair renders as
`x`, then a newline and `y` when `y` is nonempty; the pieces are interspersed
with newlines and prefixed by `first` (followed by a newline when nonempty). -/
def segToString (l : SegmentedList) : String :=
  l.first ++ (if l.first = "" then "" else "\n") ++
    joinWith "\n" (l.inner.map fun p => p.1 ++ (if p.2 = "" then "" else "\n") ++ p.2)

/- Mirror of `CheckVisitor`: on a function, if eligible record its span start
(overwriting any previous record) and do not descend into the body; otherwise
descend.  Other items are traversed in declaration order. -/
mutual

def checkItem (s : Option (Nat × Nat)) : Item → Option (Nat × Nat)
  | .fn attrs isConst _ line col body =>
    if eligible attrs isConst then some (line, col) else checkItems s body
  | .implBlock fns => checkItems s fns
  | .modDecl items => checkItems s items
  | .other => s

def checkItems (s : Option (Nat × Nat)) : List Item → Option (Nat × Nat)
  | [] => s
  | it :: rest => checkItems (checkItem s it) rest

end

/- Mirror of `FixVisitor`: on a function, if eligible call
`set_before(line - 1, indent ++ instrument(sig))` (the returned boolean is
discarded, as in the source), then always descend into the body. -/
mutual

def fixItem (s : SegmentedList) : Item → SegmentedList
  | .fn attrs isConst inputs line col body =>
    let s1 :=
      if eligible attrs isConst then
        (set_before s (line - 1) (spaces col ++ instrument inputs)).1
      else s
    fixItems s1 body
  | .implBlock fns => fixItems s fns
  | .modDecl items => fixItems s items
  | .other => s

def fixItems (s : SegmentedList) : List Item → SegmentedList
  | [] => s
  | it :: rest => fixItems (fixItem s it) rest

end

/-- Mirror of the loop `for line in start..end { self.0.remove(&line); }` in
`StripVisitor`: remove each key of the half-open range `[a, b)` in turn. -/
def removeRange (m : List (Nat × String)) (a b : Nat) : List (Nat × String) :=
  (List.range' a (b - a)).foldl
    (fun acc k => acc.filter fun p => p.1 != k) m

/- Mirror of `StripVisitor`: on a function, if `find_instrumented` finds an
attribute, remove the 0-based lines `(start - 1)..end` of its span, then
always descend into the body.  The map is kept as a key-sorted association
list; since keys start distinct and are only removed, this is the same finite
map the Rust `HashMap` holds, already in the order `From<StripVisitor>`
sorts it into. -/
mutual

def stripItem (m : List (Nat × String)) : Item → List (Nat × String)
  | .fn attrs _ _ _ _ body =>
    let m1 :=
      match find_instrumented attrs with
      | some a => removeRange m (a.startLine - 1) a.endLine
      | none => m
    stripItems m1 body
  | .implBlock fns => stripItems m fns
  | .modDecl items => stripItems m items
  | .other => m

def stripItems (m : List (Nat × String)) : List Item → List (Nat × String)
  | [] => m
  | it :: rest => stripItems (stripItem m it) rest

end

/-- Mirror of `.enumerate()` on an iterator (generalized start index). -/
def enumerate {A : Type} (n : Nat) : List A → List (Nat × A)
  | [] => []
  | x :: xs => (n, x) :: enumerate (n + 1) xs

/-- The initial `SegmentedList` built in `apply` for the fix action:
empty `first`, each line paired with an empty slot. -/
def initSeg (lines : List String) : SegmentedList :=
  ⟨"", lines.map fun x => (x, "")⟩

/-- The fix action of `apply`, at line granularity: run the visitor over the
initial segmented list and serialize. -/
def applyFixL (lines : List String) (ast : List Item) : String :=
  segToString (fixItems (initSeg lines) ast)

/-- The strip action of `apply`, at line granularity: enumerate the lines,
run the visitor, and join the surviving values (sorted by key) with
newlines, as `From<StripVisitor>` does. -/
def applyStripL (lines : List String) (ast : List Item) : String :=
  joinWith "\n" ((stripItems (enumerate 0 lines) ast).map Prod.snd)

end Clippy

namespace Clippy

/-!
## Specification-side descriptions

The definitions below restate, independently of the visitor recursions, what
the traversals compute: the depth-first list of eligible-function spans
(`eligList`), the list of instrument-attribute spans (`rangesList`), the lines
of a serialized `SegmentedList` with inserted lines flagged (`flaggedLines`),
and span well-formedness (`wfItemsB`).
-/

/- The depth-first, declaration-order list of eligible function span starts,
not descending into the body of an eligible function (exactly the functions at
which `CheckVisitor` records a span, in the order it visits them). -/
mutual

def eligItem : Item → List (Nat × Nat)
  | .fn attrs isConst _ line col body =>
    if eligible attrs isConst then [(line, col)] else eligList body
  | .implBlock fns => eligList fns
  | .modDecl items => eligList items
  | .other => []

def eligList : List Item → List (Nat × Nat)
  | [] => []
  | it :: rest => eligItem it ++ eligList rest

end

/-- `some v` when `l` is nonempty with last element `v`, otherwise `s`. -/
def lastOr (s : Option (Nat × Nat)) (l : List (Nat × Nat)) : Option (Nat × Nat) :=
  match l.getLast? with
  | some v => some v
  | none => s

/- The depth-first list of `(startLine, endLine)` spans (1-based, inclusive)
of the instrument attribute found by `find_instrumented` on each instrumented
function, descending into every body. -/
mutual

def rangesItem : Item → List (Nat × Nat)
  | .fn attrs _ _ _ _ body =>
    (match find_instrumented attrs with
     | some a => [(a.startLine, a.endLine)]
     | none => []) ++ rangesList body
  | .implBlock fns => rangesList fns
  | .modDecl items => rangesList items
  | .other => []

def rangesList : List Item → List (Nat × Nat)
  | [] => []
  | it :: rest => rangesItem it ++ rangesList rest

end

/-- Whether 0-based line `i` falls in the 1-based inclusive attribute span
`r` (the code removes the 0-based half-open range `(start - 1)..end`). -/
def inSpanB (r : Nat × Nat) (i : Nat) : Bool :=
  decide (r.1 - 1 ≤ i) && decide (i < r.2)

/-- Whether 0-based line `i` falls in some instrument-attribute span of
`ast`. -/
def removedB (ast : List Item) (i : Nat) : Bool :=
  (rangesList ast).any fun r => inSpanB r i

/-- The lines a serialized `SegmentedList` consists of, each flagged `true`
when it came from an insertion slot and `false` when it is an original line. -/
def flaggedLines (s : SegmentedList) : List (String × Bool) :=
  (if s.first = "" then [] else [(s.first, true)]) ++
    s.inner.flatMap fun p => (p.1, false) :: (if p.2 = "" then [] else [(p.2, true)])

/-- The lines of the output of the fix action (the fixed text is their
newline-join, see `segToString_eq_joinL_flagged`). -/
def fixL (lines : List String) (ast : List Item) : List String :=
  (flaggedLines (fixItems (initSeg lines) ast)).map Prod.fst

/-- `true` when the reparse `ast2` of a fixed file makes strip remove exactly
the inserted lines: line `i` of the fixed text is removed iff it is flagged as
inserted. -/
def flagsMatch (ast2 : List Item) (fl : List (String × Bool)) : Bool :=
  (enumerate 0 fl).all fun p => removedB ast2 p.1 == p.2.2

/- Span well-formedness against a file of `n` lines: every function's span
start line is 1-based and within the file. -/
mutual

def wfItemB (n : Nat) : Item → Bool
  | .fn _ _ _ line _ body => (1 ≤ line && line ≤ n) && wfItemsB n body
  | .implBlock fns => wfItemsB n fns
  | .modDecl items => wfItemsB n items
  | .other => true

def wfItemsB (n : Nat) : List Item → Bool
  | [] => true
  | it :: rest => wfItemB n it && wfItemsB n rest

end

/-- Some insertion slot of the segmented list holds text. -/
def segHasWrite (s : SegmentedList) : Prop :=
  s.first ≠ "" ∨ ∃ p ∈ s.inner, p.2 ≠ ""

/-- The per-argument exclusion rule as the specification words it: a receiver
contributes the one fixed name `self`; a simple named parameter its name; a
destructured struct pattern the names of its named fields, skipping unnamed
ones; any other pattern nothing. -/
def specArgName (arg : FnArg) : List String :=
  match arg with
  | .receiver => ["self"]
  | .typed (.ident name) => [name]
  | .typed (.structP fields) =>
    fields.filterMap fun f =>
      match f with
      | .named name => some name
      | .unnamed => none
  | .typed .other => []

/-- The spec-side exclusion list: per-argument contributions in declared
order. -/
def specArgNames (inputs : List FnArg) : List String :=
  inputs.flatMap specArgName

/-- The exempt classification exactly as the claim states it: some attribute
is a bare (path-form, argument-free) marker whose final path segment is `test`
or `proof`. -/
def specExemptBareB (attrs : List Attr) : Bool :=
  attrs.any fun a =>
    match a.meta with
    | .path segments => pathLast segments == some "test" || pathLast segments == some "proof"
    | .list _ => false
    | .nameValue => false

/-- The exempt classification the code actually implements: a bare marker
whose final segment is `test` or `proof`, or a call-style (with-arguments)
marker whose final segment is `proof`. -/
def specExemptAmendedB (attrs : List Attr) : Bool :=
  attrs.any fun a =>
    match a.meta with
    | .path segments => pathLast segments == some "test" || pathLast segments == some "proof"
    | .list segments => pathLast segments == some "proof"
    | .nameValue => false

/-- An attribute list carrying the skip marker (bare or call-style, final
segment `clippy_tracing_skip`). -/
def hasSkipMarkerB (attrs : List Attr) : Bool :=
  attrs.any fun a => matchSkip a.meta

/-- An attribute list carrying a bare `test` marker. -/
def hasBareTestB (attrs : List Attr) : Bool :=
  attrs.any fun a =>
    match a.meta with
    | .path segments => pathLast segments == some "test"
    | _ => false

end Clippy

namespace Clippy

/-!
## Lemmas: check visitor
-/

theorem lastOr_append (s : Option (Nat × Nat)) (a b : List (Nat × Nat)) :
    lastOr (lastOr s a) b = lastOr s (a ++ b) := by
  cases b with
  | nil => simp [lastOr]
  | cons x xs =>
    unfold lastOr
    rw [List.getLast?_append_of_ne_nil _ (List.cons_ne_nil x xs)]
    cases h : (x :: xs).getLast? with
    | none => exact absurd (List.getLast?_eq_none_iff.mp h) (List.cons_ne_nil x xs)
    | some v => rfl

mutual

theorem checkItem_eq (s : Option (Nat × Nat)) (it : Item) :
    checkItem s it = lastOr s (eligItem it) := by
  cases it with
  | fn attrs isConst inputs line col body =>
    cases h : eligible attrs isConst with
    | true => simp [checkItem, eligItem, h, lastOr]
    | false => simp [checkItem, eligItem, h, checkItems_eq s body]
  | implBlock fns => simp [checkItem, eligItem, checkItems_eq s fns]
  | modDecl items => simp [checkItem, eligItem, checkItems_eq s items]
  | other => simp [checkItem, eligItem, lastOr]

theorem checkItems_eq (s : Option (Nat × Nat)) (l : List Item) :
    checkItems s l = lastOr s (eligList l) := by
  cases l with
  | nil => simp [checkItems, eligList, lastOr]
  | cons it rest =>
    rw [checkItems, checkItems_eq (checkItem s it) rest, checkItem_eq s it,
      lastOr_append, eligList]

end

/-- `check` reports nothing exactly when the eligible list is empty. -/
theorem check_none_iff (ast : List Item) :
    checkItems none ast = none ↔ eligList ast = [] := by
  rw [checkItems_eq]
  unfold lastOr
  cases h : (eligList ast).getLast? with
  | none => simp [List.getLast?_eq_none_iff.mp h]
  | some v =>
    simp only [reduceCtorEq, false_iff]
    intro hnil
    rw [hnil] at h
    simp at h

/-!
## Lemmas: attribute classifier
-/

/-- The fold in `check_attributes` computes the three `any`-style flags. -/
theorem check_attributes_spec (attrs : List Attr) :
    check_attributes attrs =
      ⟨attrs.any fun a => matchInstrument a.meta,
       attrs.any fun a => matchSkip a.meta,
       attrs.any fun a => matchTest a.meta⟩ := by
  suffices h : ∀ d : Desc, attrs.foldl
      (fun d a =>
        { instrumented := d.instrumented || matchInstrument a.meta
          skipped := d.skipped || matchSkip a.meta
          test := d.test || matchTest a.meta })
      d =
      ⟨d.instrumented || attrs.any fun a => matchInstrument a.meta,
       d.skipped || attrs.any fun a => matchSkip a.meta,
       d.test || attrs.any fun a => matchTest a.meta⟩ by
    rw [check_attributes, h ⟨false, false, false⟩]
    simp
  induction attrs with
  | nil => intro d; simp
  | cons a rest ih =>
    intro d
    rw [List.foldl_cons, ih]
    simp [Bool.or_assoc]

end Clippy

namespace Clippy

/-!
## Lemmas: strip visitor
-/

theorem foldl_filter_range' (n : Nat) :
    ∀ (a : Nat) (m : List (Nat × String)),
      (List.range' a n).foldl (fun acc k => acc.filter fun p => p.1 != k) m =
        m.filter fun p => decide (p.1 < a) || decide (a + n ≤ p.1) := by
  induction n with
  | zero =>
    intro a m
    simp only [List.range'_zero, List.foldl_nil]
    refine (List.filter_eq_self.mpr ?_).symm
    intro p _
    simp only [Bool.or_eq_true, decide_eq_true_eq]
    omega
  | succ n ih =>
    intro a m
    rw [List.range'_succ, List.foldl_cons, ih]
    rw [List.filter_filter]
    apply List.filter_congr
    intro p _
    rw [Bool.eq_iff_iff]
    simp only [Bool.or_eq_true, Bool.and_eq_true, bne_iff_ne, ne_eq,
      decide_eq_true_eq]
    omega

/-- `removeRange` filters out exactly the keys of the half-open range. -/
theorem removeRange_eq_filter (m : List (Nat × String)) (a b : Nat) :
    removeRange m a b = m.filter fun p => !(decide (a ≤ p.1) && decide (p.1 < b)) := by
  rw [removeRange, foldl_filter_range']
  apply List.filter_congr
  intro p _
  rw [Bool.eq_iff_iff]
  simp only [Bool.or_eq_true, Bool.not_eq_true', Bool.and_eq_false_iff,
    decide_eq_true_eq, decide_eq_false_iff_not]
  omega

mutual

theorem stripItem_eq (m : List (Nat × String)) (it : Item) :
    stripItem m it = m.filter fun p => !((rangesItem it).any fun r => inSpanB r p.1) := by
  cases it with
  | fn attrs isConst inputs line col body =>
    cases h : find_instrumented attrs with
    | some a =>
      rw [stripItem]
      rw [h]
      simp only
      rw [stripItems_eq, removeRange_eq_filter, List.filter_filter, rangesItem, h]
      apply List.filter_congr
      intro p _
      simp [removedB, inSpanB, Bool.and_comm]
    | none =>
      rw [stripItem, h]
      simp only
      rw [stripItems_eq, rangesItem, h]
      simp [removedB]
  | implBlock fns =>
    rw [stripItem, stripItems_eq, rangesItem]
    simp [removedB]
  | modDecl items =>
    rw [stripItem, stripItems_eq, rangesItem]
    simp [removedB]
  | other =>
    rw [stripItem, rangesItem]
    simp

theorem stripItems_eq (m : List (Nat × String)) (l : List Item) :
    stripItems m l = m.filter fun p => !removedB l p.1 := by
  cases l with
  | nil =>
    rw [stripItems]
    simp [removedB, rangesList]
  | cons it rest =>
    rw [stripItems, stripItems_eq (stripItem m it) rest, stripItem_eq m it,
      List.filter_filter]
    apply List.filter_congr
    intro p _
    simp [removedB, rangesList, Bool.and_comm]

end

theorem enumerate_map_snd {A : Type} (L : List A) :
    ∀ n, (enumerate n L).map Prod.snd = L := by
  induction L with
  | nil => intro n; rfl
  | cons x xs ih => intro n; simp [enumerate, ih]

end Clippy

namespace Clippy

/-!
## Lemmas: strings and lengths
-/

theorem strLength_append (s t : String) : (s ++ t).length = s.length + t.length := by
  show (s ++ t).data.length = s.data.length + t.data.length
  rw [String.data_append, List.length_append]

theorem strLength_pos (s : String) (h : s ≠ "") : 0 < s.length := by
  cases s with
  | mk data =>
    cases data with
    | nil => exact absurd rfl h
    | cons c cs => simp [String.length]

theorem joinL_length : ∀ l : List String,
    (joinL l).length = (l.map String.length).sum + (l.length - 1)
  | [] => by simp [joinL, joinWith]
  | [x] => by simp [joinL, joinWith]
  | x :: y :: rest => by
    have ih := joinL_length (y :: rest)
    rw [joinL, joinWith, strLength_append, strLength_append]
    rw [joinL] at ih
    rw [ih]
    simp only [List.map_cons, List.sum_cons, List.length_cons]
    have : ("\n").length = 1 := rfl
    omega

theorem pieces_sum_ge : ∀ l : List (String × String),
    ((l.map Prod.fst).map String.length).sum ≤
      ((l.map fun p => p.1 ++ (if p.2 = "" then "" else "\n") ++ p.2).map String.length).sum
  | [] => Nat.le_refl _
  | p :: rest => by
    have ih := pieces_sum_ge rest
    simp only [List.map_cons, List.sum_cons, strLength_append]
    have : 0 ≤ (if p.2 = "" then "" else "\n").length + p.2.length := Nat.zero_le _
    omega

theorem pieces_sum_gt : ∀ l : List (String × String), (∃ p ∈ l, p.2 ≠ "") →
    ((l.map Prod.fst).map String.length).sum <
      ((l.map fun p => p.1 ++ (if p.2 = "" then "" else "\n") ++ p.2).map String.length).sum
  | [], h => absurd h (by simp)
  | p :: rest, h => by
    simp only [List.map_cons, List.sum_cons, strLength_append]
    rcases h with ⟨q, hq, hne⟩
    cases List.mem_cons.mp hq with
    | inl hqp =>
      subst hqp
      have h1 : (if q.2 = "" then "" else ("\n" : String)).length = 1 := by
        rw [if_neg hne]
        decide
      have h2 := pieces_sum_ge rest
      omega
    | inr hqrest =>
      have h1 := pieces_sum_gt rest ⟨q, hqrest, hne⟩
      have : 0 ≤ (if p.2 = "" then "" else "\n").length + p.2.length := Nat.zero_le _
      omega

/-- When some slot holds text, the serialized output is strictly longer than
the join of the original lines alone. -/
theorem segToString_gt (s : SegmentedList) (h : segHasWrite s) :
    (joinL (s.inner.map Prod.fst)).length < (segToString s).length := by
  have hpieces : (joinL (s.inner.map fun p => p.1 ++ (if p.2 = "" then "" else "\n") ++ p.2)).length =
      ((s.inner.map fun p => p.1 ++ (if p.2 = "" then "" else "\n") ++ p.2).map String.length).sum +
        (s.inner.length - 1) := by
    rw [joinL_length]
    simp
  have hfst : (joinL (s.inner.map Prod.fst)).length =
      ((s.inner.map Prod.fst).map String.length).sum + (s.inner.length - 1) := by
    rw [joinL_length]
    simp
  rw [segToString, strLength_append, strLength_append]
  rw [show (joinWith "\n" (s.inner.map fun p => p.1 ++ (if p.2 = "" then "" else "\n") ++ p.2)) =
    (joinL (s.inner.map fun p => p.1 ++ (if p.2 = "" then "" else "\n") ++ p.2)) from rfl]
  rw [hpieces, hfst]
  cases h with
  | inl hfirst =>
    have h1 := strLength_pos s.first hfirst
    have h2 := pieces_sum_ge s.inner
    omega
  | inr hslot =>
    have h1 := pieces_sum_gt s.inner hslot
    have : 0 ≤ s.first.length + (if s.first = "" then "" else "\n").length := Nat.zero_le _
    omega

theorem segToString_initSeg (L : List String) : segToString (initSeg L) = joinL L := by
  rw [segToString, initSeg]
  simp only [List.map_map]
  have hcomp : ((fun p : String × String => p.1 ++ (if p.2 = "" then "" else "\n") ++ p.2) ∘
      fun x => (x, "")) = id := by
    funext x
    simp
  rw [hcomp, List.map_id]
  simp [joinL]

end Clippy

namespace Clippy

/-!
## Lemmas: `set_before` and the fix visitor
-/

theorem setSnd_map_fst : ∀ (l : List (String × String)) (i : Nat) (text : String),
    (setSnd l i text).map Prod.fst = l.map Prod.fst
  | [], _, _ => rfl
  | p :: rest, 0, text => by simp [setSnd]
  | p :: rest, Nat.succ i, text => by
    simp [setSnd, setSnd_map_fst rest i text]

theorem setSnd_setSnd : ∀ (l : List (String × String)) (i : Nat) (t1 t2 : String),
    setSnd (setSnd l i t1) i t2 = setSnd l i t2
  | [], _, _, _ => rfl
  | p :: rest, 0, t1, t2 => rfl
  | p :: rest, Nat.succ i, t1, t2 => by
    simp [setSnd, setSnd_setSnd rest i t1 t2]

theorem setSnd_length (l : List (String × String)) (i : Nat) (text : String) :
    (setSnd l i text).length = l.length := by
  have := congrArg List.length (setSnd_map_fst l i text)
  simpa using this

theorem mem_setSnd : ∀ (l : List (String × String)) (i : Nat) (text : String),
    i < l.length → ∃ x, (x, text) ∈ setSnd l i text
  | [], i, text, h => absurd h (by simp)
  | p :: rest, 0, text, _ => ⟨p.1, by simp [setSnd]⟩
  | p :: rest, Nat.succ i, text, h => by
    obtain ⟨x, hx⟩ := mem_setSnd rest i text (by simpa using h)
    exact ⟨x, by simp [setSnd, hx]⟩

theorem set_before_map_fst (s : SegmentedList) (line : Nat) (text : String) :
    ((set_before s line text).1).inner.map Prod.fst = s.inner.map Prod.fst := by
  cases line with
  | zero => rfl
  | succ i =>
    rw [set_before]
    by_cases h : i < s.inner.length
    · rw [if_pos h]
      exact setSnd_map_fst s.inner i text
    · rw [if_neg h]

theorem set_before_length (s : SegmentedList) (line : Nat) (text : String) :
    ((set_before s line text).1).inner.length = s.inner.length := by
  have := congrArg List.length (set_before_map_fst s line text)
  simpa using this

theorem set_before_hasWrite (s : SegmentedList) (line : Nat) (text : String)
    (ht : text ≠ "") (hs : segHasWrite s) :
    segHasWrite (set_before s line text).1 := by
  cases line with
  | zero => exact Or.inl ht
  | succ i =>
    rw [set_before]
    by_cases h : i < s.inner.length
    · rw [if_pos h]
      obtain ⟨x, hx⟩ := mem_setSnd s.inner i text h
      exact Or.inr ⟨(x, text), hx, ht⟩
    · rw [if_neg h]
      exact hs

theorem set_before_write_hasWrite (s : SegmentedList) (line : Nat) (text : String)
    (ht : text ≠ "") (h1 : 1 ≤ line) (h2 : line ≤ s.inner.length) :
    segHasWrite (set_before s (line - 1) text).1 := by
  cases line with
  | zero => omega
  | succ k =>
    show segHasWrite (set_before s k text).1
    cases k with
    | zero => exact Or.inl ht
    | succ j =>
      rw [set_before]
      have hj : j < s.inner.length := by
        omega
      rw [if_pos hj]
      obtain ⟨x, hx⟩ := mem_setSnd s.inner j text hj
      exact Or.inr ⟨(x, text), hx, ht⟩

theorem instr_text_ne_empty (col : Nat) (inputs : List FnArg) :
    spaces col ++ instrument inputs ≠ "" := by
  intro h
  have hlen := congrArg String.length h
  rw [strLength_append, instrument, strLength_append, strLength_append] at hlen
  have hlit : 0 < ("#[tracing::instrument(level = \"trace\", skip(" : String).length := by
    decide
  have hempty : ("" : String).length = 0 := rfl
  rw [hempty] at hlen
  omega

mutual

theorem fixItem_map_fst (s : SegmentedList) (it : Item) :
    (fixItem s it).inner.map Prod.fst = s.inner.map Prod.fst := by
  cases it with
  | fn attrs isConst inputs line col body =>
    rw [fixItem]
    cases h : eligible attrs isConst with
    | true =>
      simp only [h, if_true]
      rw [fixItems_map_fst, set_before_map_fst]
    | false =>
      simp only [h, Bool.false_eq_true, if_false]
      exact fixItems_map_fst s body
  | implBlock fns => exact fixItems_map_fst s fns
  | modDecl items => exact fixItems_map_fst s items
  | other => rfl

theorem fixItems_map_fst (s : SegmentedList) (l : List Item) :
    (fixItems s l).inner.map Prod.fst = s.inner.map Prod.fst := by
  cases l with
  | nil => rfl
  | cons it rest =>
    rw [fixItems, fixItems_map_fst (fixItem s it) rest, fixItem_map_fst s it]

end

theorem fixItems_length (s : SegmentedList) (l : List Item) :
    (fixItems s l).inner.length = s.inner.length := by
  have := congrArg List.length (fixItems_map_fst s l)
  simpa using this

theorem fixItem_length (s : SegmentedList) (it : Item) :
    (fixItem s it).inner.length = s.inner.length := by
  have := congrArg List.length (fixItem_map_fst s it)
  simpa using this

mutual

theorem fixItem_id_of_elig_nil (s : SegmentedList) (it : Item)
    (h : eligItem it = []) : fixItem s it = s := by
  cases it with
  | fn attrs isConst inputs line col body =>
    rw [eligItem] at h
    cases helig : eligible attrs isConst with
    | true => rw [helig] at h; simp at h
    | false =>
      rw [helig] at h
      simp only [Bool.false_eq_true, if_false] at h
      rw [fixItem, helig]
      simp only [Bool.false_eq_true, if_false]
      exact fixItems_id_of_elig_nil s body h
  | implBlock fns =>
    rw [eligItem] at h
    exact fixItems_id_of_elig_nil s fns h
  | modDecl items =>
    rw [eligItem] at h
    exact fixItems_id_of_elig_nil s items h
  | other => rfl

theorem fixItems_id_of_elig_nil (s : SegmentedList) (l : List Item)
    (h : eligList l = []) : fixItems s l = s := by
  cases l with
  | nil => rfl
  | cons it rest =>
    rw [eligList] at h
    have h1 : eligItem it = [] := by
      rcases List.append_eq_nil.mp h with ⟨h1, _⟩
      exact h1
    have h2 : eligList rest = [] := by
      rcases List.append_eq_nil.mp h with ⟨_, h2⟩
      exact h2
    rw [fixItems, fixItem_id_of_elig_nil s it h1,
      fixItems_id_of_elig_nil s rest h2]

end

mutual

theorem fixItem_hasWrite_mono (s : SegmentedList) (it : Item)
    (hs : segHasWrite s) : segHasWrite (fixItem s it) := by
  cases it with
  | fn attrs isConst inputs line col body =>
    rw [fixItem]
    cases h : eligible attrs isConst with
    | true =>
      simp only [h, if_true]
      exact fixItems_hasWrite_mono _ body
        (set_before_hasWrite s (line - 1) _ (instr_text_ne_empty col inputs) hs)
    | false =>
      simp only [h, Bool.false_eq_true, if_false]
      exact fixItems_hasWrite_mono s body hs
  | implBlock fns => exact fixItems_hasWrite_mono s fns hs
  | modDecl items => exact fixItems_hasWrite_mono s items hs
  | other => exact hs

theorem fixItems_hasWrite_mono (s : SegmentedList) (l : List Item)
    (hs : segHasWrite s) : segHasWrite (fixItems s l) := by
  cases l with
  | nil => exact hs
  | cons it rest =>
    exact fixItems_hasWrite_mono (fixItem s it) rest (fixItem_hasWrite_mono s it hs)

end

mutual

theorem fixItem_hasWrite (s : SegmentedList) (it : Item)
    (hwf : wfItemB s.inner.length it = true) (hne : eligItem it ≠ []) :
    segHasWrite (fixItem s it) := by
  cases it with
  | fn attrs isConst inputs line col body =>
    rw [wfItemB] at hwf
    simp only [Bool.and_eq_true, decide_eq_true_eq] at hwf
    rw [fixItem]
    cases h : eligible attrs isConst with
    | true =>
      simp only [h, if_true]
      apply fixItems_hasWrite_mono
      exact set_before_write_hasWrite s line _ (instr_text_ne_empty col inputs)
        hwf.1.1 hwf.1.2
    | false =>
      simp only [h, Bool.false_eq_true, if_false]
      rw [eligItem, h] at hne
      simp only [Bool.false_eq_true, if_false] at hne
      exact fixItems_hasWrite s body hwf.2 hne
  | implBlock fns =>
    rw [wfItemB] at hwf
    rw [eligItem] at hne
    exact fixItems_hasWrite s fns hwf hne
  | modDecl items =>
    rw [wfItemB] at hwf
    rw [eligItem] at hne
    exact fixItems_hasWrite s items hwf hne
  | other =>
    rw [eligItem] at hne
    exact absurd rfl hne

theorem fixItems_hasWrite (s : SegmentedList) (l : List Item)
    (hwf : wfItemsB s.inner.length l = true) (hne : eligList l ≠ []) :
    segHasWrite (fixItems s l) := by
  cases l with
  | nil =>
    rw [eligList] at hne
    exact absurd rfl hne
  | cons it rest =>
    rw [wfItemsB] at hwf
    simp only [Bool.and_eq_true] at hwf
    rw [eligList] at hne
    rw [fixItems]
    by_cases h1 : eligItem it = []
    · have h2 : eligList rest ≠ [] := by
        intro h2
        exact hne (by rw [h1, h2]; rfl)
      apply fixItems_hasWrite (fixItem s it) rest _ h2
      rw [fixItem_length]
      exact hwf.2
    · exact fixItems_hasWrite_mono _ rest (fixItem_hasWrite s it hwf.1 h1)

end

end Clippy

namespace Clippy

/-- The fix action leaves the text unchanged exactly when no function is
eligible. -/
theorem fix_noop_iff (L : List String) (ast : List Item)
    (hwf : wfItemsB L.length ast = true) :
    applyFixL L ast = joinL L ↔ eligList ast = [] := by
  constructor
  · intro h
    by_contra hne
    have hlen : (initSeg L).inner.length = L.length := by
      simp [initSeg]
    have hw : segHasWrite (fixItems (initSeg L) ast) := by
      apply fixItems_hasWrite
      · rw [hlen]
        exact hwf
      · exact hne
    have hgt := segToString_gt _ hw
    have hfst : (fixItems (initSeg L) ast).inner.map Prod.fst = L := by
      rw [fixItems_map_fst, initSeg]
      simp only [List.map_map]
      have : (Prod.fst ∘ fun x : String => (x, ("" : String))) = id := by
        funext x
        rfl
      rw [this, List.map_id]
    rw [hfst] at hgt
    rw [applyFixL] at h
    rw [h] at hgt
    exact Nat.lt_irrefl _ hgt
  · intro h
    rw [applyFixL, fixItems_id_of_elig_nil _ _ h, segToString_initSeg]

/-- C1 (amended): for every syntax tree, `check` returns the span start of
the LAST eligible function in depth-first declaration order — each newly
found eligible function overwrites the previously recorded span, the body of
an eligible function is not descended into (`eligItem` stops at an eligible
function), and subsequent siblings are still scanned (`eligList` appends the
results of later siblings).  The claim as frozen says the FIRST failure is
surfaced; the code keeps the last. -/
theorem C1_check_returns_last_eligible (ast : List Item) :
    checkItems none ast = (eligList ast).getLast? := by
  rw [checkItems_eq]
  unfold lastOr
  cases h : (eligList ast).getLast? with
  | none => rfl
  | some v => rfl

/-- C1 counterexample: on a file with two eligible top-level functions, at
span starts (1,0) and (2,0), `check` surfaces (2,0) — the last one in
declaration order — while the first eligible function (the head of the
depth-first eligible list) is at (1,0). -/
theorem C1_counterexample :
    checkItems none [Item.fn [] false [] 1 0 [], Item.fn [] false [] 2 0 []] =
        some (2, 0) ∧
      (eligList [Item.fn [] false [] 1 0 [], Item.fn [] false [] 2 0 []]).head? =
        some (1, 0) ∧
      ((2, 0) : Nat × Nat) ≠ (1, 0) := by
  refine ⟨rfl, rfl, by decide⟩

/-- C5 (confirmed): for every file (lines `L`) and syntax tree whose function
span lines lie within the file, `check` reports no missing instrumentation
iff `fix` on the same content is a no-op, i.e. produces text identical to the
input. -/
theorem C5_check_fix_consistency (L : List String) (ast : List Item)
    (hwf : wfItemsB L.length ast = true) :
    checkItems none ast = none ↔ applyFixL L ast = joinL L :=
  (check_none_iff ast).trans (fix_noop_iff L ast hwf).symm

/-- C5 witness: concrete instance, a single uninstrumented `fn main` — check
reports a failure and fix changes the text, making both sides false. -/
theorem C5_witness :
    checkItems none [Item.fn [] false [] 1 0 []] = none ↔
      applyFixL ["fn main() {}"] [Item.fn [] false [] 1 0 []] =
        joinL ["fn main() {}"] :=
  C5_check_fix_consistency ["fn main() {}"] [Item.fn [] false [] 1 0 []] (by decide)

end Clippy

namespace Clippy

/-- C6 (confirmed): a single function item (empty body) is flagged by check
exactly when none of instrumented/skipped/test holds and it is not `const`;
fix on it is a no-op exactly when that eligibility condition fails; a
function carrying the skip marker, or a bare `test` marker, is never
eligible; and a `const` function is never eligible regardless of
attributes. -/
theorem C6_eligibility (attrs : List Attr) (isConst : Bool) (inputs : List FnArg)
    (line col : Nat) (L : List String)
    (h1 : 1 ≤ line) (h2 : line ≤ L.length) :
    ((checkItems none [Item.fn attrs isConst inputs line col []]).isSome =
        (!(check_attributes attrs).instrumented && !(check_attributes attrs).skipped &&
          !(check_attributes attrs).test && !isConst)) ∧
      (applyFixL L [Item.fn attrs isConst inputs line col []] = joinL L ↔
        (!(check_attributes attrs).instrumented && !(check_attributes attrs).skipped &&
          !(check_attributes attrs).test && !isConst) = false) ∧
      (hasSkipMarkerB attrs = true → eligible attrs isConst = false) ∧
      (hasBareTestB attrs = true → eligible attrs isConst = false) ∧
      eligible attrs true = false := by
  have hE : (!(check_attributes attrs).instrumented && !(check_attributes attrs).skipped &&
      !(check_attributes attrs).test && !isConst) = eligible attrs isConst := rfl
  have hwf : wfItemsB L.length [Item.fn attrs isConst inputs line col []] = true := by
    simp [wfItemsB, wfItemB, h1, h2]
  have helig : eligList [Item.fn attrs isConst inputs line col []] =
      (if eligible attrs isConst then [(line, col)] else []) := by
    cases h : eligible attrs isConst with
    | true => simp [eligList, eligItem, h]
    | false => simp [eligList, eligItem, h]
  refine ⟨?_, ?_, ?_, ?_, ?_⟩
  · rw [hE]
    cases h : eligible attrs isConst with
    | true => simp [checkItems, checkItem, h]
    | false => simp [checkItems, checkItem, h]
  · rw [hE]
    rw [fix_noop_iff L _ hwf, helig]
    cases h : eligible attrs isConst with
    | true => simp
    | false => simp
  · intro hskip
    have hs : (check_attributes attrs).skipped = true := by
      rw [check_attributes_spec]
      exact hskip
    simp [eligible, hs]
  · intro htest
    have ht : (check_attributes attrs).test = true := by
      rw [check_attributes_spec]
      simp only
      rcases List.any_eq_true.mp htest with ⟨a, ha, hpred⟩
      apply List.any_eq_true.mpr
      refine ⟨a, ha, ?_⟩
      cases hm : a.meta with
      | path segments =>
        rw [hm] at hpred
        have hp : (pathLast segments == some "test") = true := hpred
        simp only [matchTest]
        rw [hp]
        rfl
      | list segments =>
        rw [hm] at hpred
        exact absurd (show (false : Bool) = true from hpred) (by simp)
      | nameValue =>
        rw [hm] at hpred
        exact absurd (show (false : Bool) = true from hpred) (by simp)
    simp [eligible, ht]
  · simp [eligible]

/-- C6 witness: a bare-`test`-marked function in a two-line file — not
flagged, fix is a no-op, and the particular implications fire. -/
theorem C6_witness :
    ((checkItems none [Item.fn [⟨.path ["test"], 1, 1⟩] false [] 1 0 []]).isSome =
        (!(check_attributes [⟨.path ["test"], 1, 1⟩]).instrumented &&
          !(check_attributes [⟨.path ["test"], 1, 1⟩]).skipped &&
          !(check_attributes [⟨.path ["test"], 1, 1⟩]).test && !false)) ∧
      (applyFixL ["#[test]", "fn t() {}"] [Item.fn [⟨.path ["test"], 1, 1⟩] false [] 1 0 []] =
          joinL ["#[test]", "fn t() {}"] ↔
        (!(check_attributes [⟨.path ["test"], 1, 1⟩]).instrumented &&
          !(check_attributes [⟨.path ["test"], 1, 1⟩]).skipped &&
          !(check_attributes [⟨.path ["test"], 1, 1⟩]).test && !false) = false) ∧
      (hasSkipMarkerB [⟨.path ["test"], 1, 1⟩] = true →
        eligible [⟨.path ["test"], 1, 1⟩] false = false) ∧
      (hasBareTestB [⟨.path ["test"], 1, 1⟩] = true →
        eligible [⟨.path ["test"], 1, 1⟩] false = false) ∧
      eligible [⟨.path ["test"], 1, 1⟩] true = false :=
  C6_eligibility [⟨.path ["test"], 1, 1⟩] false [] 1 0 ["#[test]", "fn t() {}"]
    (by decide) (by decide)

end Clippy

namespace Clippy

/-- C2 (amended): a second write into the same in-range insertion slot during
one pass silently replaces the slot's previous content and again reports
success (`true`); nothing detects or rejects the conflict, and the earlier
edit is dropped. -/
theorem C2_second_write_overwrites (s : SegmentedList) (line : Nat) (t1 t2 : String)
    (h : line = 0 ∨ line - 1 < s.inner.length) :
    set_before (set_before s line t1).1 line t2 = ((set_before s line t2).1, true) := by
  cases line with
  | zero => rfl
  | succ i =>
    have hi : i < s.inner.length := by
      rcases h with h | h
      · exact absurd h (by simp)
      · simpa using h
    have hfirst : (set_before s (i + 1) t1).1 = ⟨s.first, setSnd s.inner i t1⟩ := by
      show (if i < s.inner.length then
        ((⟨s.first, setSnd s.inner i t1⟩ : SegmentedList), true) else (s, false)).1 = _
      rw [if_pos hi]
    rw [hfirst]
    show (if i < (setSnd s.inner i t1).length then
        ((⟨s.first, setSnd (setSnd s.inner i t1) i t2⟩ : SegmentedList), true)
      else (⟨s.first, setSnd s.inner i t1⟩, false)) = _
    rw [if_pos (by rw [setSnd_length]; exact hi), setSnd_setSnd]
    show _ = ((if i < s.inner.length then
        ((⟨s.first, setSnd s.inner i t2⟩ : SegmentedList), true) else (s, false)).1, true)
    rw [if_pos hi]

/-- C2 counterexample: writing `NEW` into a slot already holding `OLD`
succeeds (returns `true`) and silently replaces the content — it is not
rejected as any kind of error, contrary to the claim. -/
theorem C2_counterexample :
    set_before ⟨"", [("a", "OLD")]⟩ 1 "NEW" = (⟨"", [("a", "NEW")]⟩, true) := rfl

/-- C2 witness: concrete double write into slot 1 of a one-line list. -/
theorem C2_witness :
    set_before (set_before ⟨"", [("a", "")]⟩ 1 "X").1 1 "Y" =
      ((set_before ⟨"", [("a", "")]⟩ 1 "Y").1, true) :=
  C2_second_write_overwrites ⟨"", [("a", "")]⟩ 1 "X" "Y" (Or.inr (by decide))

/-- C10 (confirmed): `set_before` on a positive line index whose predecessor
index lies past the last original line returns `false` and leaves the
segmented list (every line and every slot) unchanged; and `FixVisitor`
discards that boolean, so an out-of-range insertion for an eligible function
leaves the visitor state exactly as it was — silently dropped, with no error
recorded anywhere. -/
theorem C10_out_of_range (s : SegmentedList) (line : Nat) (text : String)
    (attrs : List Attr) (isConst : Bool) (inputs : List FnArg) (col : Nat) :
    (1 ≤ line → s.inner.length ≤ line - 1 → set_before s line text = (s, false)) ∧
      (2 ≤ line → s.inner.length ≤ line - 2 →
        fixItem s (Item.fn attrs isConst inputs line col []) = s) := by
  have hpart1 : ∀ ln : Nat, 1 ≤ ln → s.inner.length ≤ ln - 1 →
      ∀ t : String, set_before s ln t = (s, false) := by
    intro ln h1 h2 t
    cases ln with
    | zero => omega
    | succ i =>
      rw [set_before, if_neg]
      omega
  constructor
  · intro h1 h2
    exact hpart1 line h1 h2 text
  · intro h1 h2
    rw [fixItem]
    cases h : eligible attrs isConst with
    | true =>
      simp only [h, if_true]
      rw [hpart1 (line - 1) (by omega) (by omega) _]
      rfl
    | false =>
      simp only [h, Bool.false_eq_true, if_false]
      rfl

/-- C10 witness: a one-line file, insertion requested before line 3. -/
theorem C10_witness :
    set_before ⟨"", [("x", "")]⟩ 3 "T" = (⟨"", [("x", "")]⟩, false) ∧
      fixItem ⟨"", [("x", "")]⟩ (Item.fn [] false [] 3 0 []) = ⟨"", [("x", "")]⟩ :=
  ⟨(C10_out_of_range ⟨"", [("x", "")]⟩ 3 "T" [] false [] 0).1 (by decide) (by decide),
   (C10_out_of_range ⟨"", [("x", "")]⟩ 3 "T" [] false [] 0).2 (by decide) (by decide)⟩

end Clippy

namespace Clippy

/-- The code-side exclusion list equals the spec-side per-argument rule. -/
theorem argNames_eq_spec : ∀ inputs : List FnArg, argNames inputs = specArgNames inputs := by
  intro inputs
  induction inputs with
  | nil => rfl
  | cons arg rest ih =>
    simp only [argNames, specArgNames, List.flatMap_cons] at *
    congr 1
    cases arg with
    | receiver => rfl
    | typed pat => cases pat <;> rfl

/-- C8 (confirmed): the synthesized exclusion list contains, in declared
order, `self` for a receiver, the name of a simple named parameter, the named
fields (skipping unnamed ones) of a destructured struct pattern, and nothing
for any other pattern; in particular `(lhs, rhs)` yields exactly
`lhs, rhs`. -/
theorem C8_exclusion_list (inputs : List FnArg) :
    argNames inputs = specArgNames inputs ∧
      argNames [FnArg.typed (Pat.ident "lhs"), FnArg.typed (Pat.ident "rhs")] =
        ["lhs", "rhs"] :=
  ⟨argNames_eq_spec inputs, rfl⟩

/-- C9 (amended): a function is classified exempt (test-like) iff some
attribute is a bare marker whose final segment is `test` or `proof`, OR a
call-style (with-arguments) marker whose final segment is `proof`; name-value
attributes never count.  The claim as frozen allowed only bare markers. -/
theorem C9_exempt_characterization (attrs : List Attr) :
    (check_attributes attrs).test = specExemptAmendedB attrs := by
  rw [check_attributes_spec]
  show attrs.any (fun a => matchTest a.meta) = _
  rw [specExemptAmendedB]
  apply congrArg (List.any attrs)
  funext a
  cases a.meta <;> rfl

/-- C9 counterexample: the call-style attribute `#[kani::proof(...)]`
(`Meta::List`, so it has arguments) makes the function exempt in the code,
while the claim's bare-marker-only rule classifies it as not exempt. -/
theorem C9_counterexample :
    (check_attributes [⟨.list ["kani", "proof"], 1, 1⟩]).test = true ∧
      specExemptBareB [⟨.list ["kani", "proof"], 1, 1⟩] = false :=
  ⟨rfl, rfl⟩

theorem enumerate_succ_eq_map {A : Type} (L : List A) :
    ∀ n, enumerate (n + 1) L = (enumerate n L).map fun p => (p.1 + 1, p.2) := by
  induction L with
  | nil => intro n; rfl
  | cons x xs ih =>
    intro n
    rw [enumerate, enumerate, List.map_cons, ih (n + 1)]

/-- C7 (confirmed): strip's output is exactly the original lines, in order,
minus those whose 1-based number falls in the inclusive span
`[startLine, endLine]` of some instrumented function's instrument attribute,
joined with single newlines — the filter runs over the enumeration of the
*original* lines, so removals never shift any other line's index; and with no
instrument attributes anywhere, strip returns the join of the original lines
unchanged. -/
theorem C7_strip_characterization (L : List String) (ast : List Item) :
    applyStripL L ast =
      joinL (((enumerate 1 L).filter fun p =>
        !((rangesList ast).any fun r => decide (r.1 ≤ p.1) && decide (p.1 ≤ r.2))).map
          Prod.snd) ∧
      (rangesList ast = [] → applyStripL L ast = joinL L) := by
  constructor
  · rw [applyStripL, stripItems_eq]
    show joinL _ = _
    congr 1
    have henum : enumerate 1 L = (enumerate 0 L).map fun p => (p.1 + 1, p.2) :=
      enumerate_succ_eq_map L 0
    rw [henum, List.filter_map]
    rw [List.map_map]
    have hsnd : (Prod.snd ∘ fun p : Nat × String => (p.1 + 1, p.2)) = Prod.snd := by
      funext p
      rfl
    rw [hsnd]
    congr 1
    apply List.filter_congr
    intro p _
    show (!removedB ast p.1) =
      !((rangesList ast).any fun r => decide (r.1 ≤ p.1 + 1) && decide (p.1 + 1 ≤ r.2))
    have hsp : ∀ r : Nat × Nat, inSpanB r p.1 =
        (decide (r.1 ≤ p.1 + 1) && decide (p.1 + 1 ≤ r.2)) := by
      intro r
      rw [inSpanB, Bool.eq_iff_iff]
      simp only [Bool.and_eq_true, decide_eq_true_eq]
      omega
    rw [removedB, congrArg (List.any (rangesList ast)) (funext hsp)]
  · intro h
    rw [applyStripL, stripItems_eq]
    have : ∀ p : Nat × String, p ∈ enumerate 0 L → (!removedB ast p.1) = true := by
      intro p _
      rw [removedB, h]
      rfl
    rw [List.filter_eq_self.mpr this, enumerate_map_snd]
    rfl

/-- C7 witness: a file with no instrument attributes — strip is the
identity. -/
theorem C7_witness :
    applyStripL ["fn main() {}"] [Item.fn [] false [] 1 0 []] =
      joinL ["fn main() {}"] :=
  (C7_strip_characterization ["fn main() {}"] [Item.fn [] false [] 1 0 []]).2 (by decide)

end Clippy

namespace Clippy

/-!
## Lemmas: serialized lines of a segmented list
-/

theorem joinL_cons_ne (a : String) (l : List String) (h : l ≠ []) :
    joinL (a :: l) = a ++ "\n" ++ joinL l := by
  cases l with
  | nil => exact absurd rfl h
  | cons b rest => rfl

theorem flatMap_lines_ne_nil (p : String × String) (rest : List (String × String)) :
    (p :: rest).flatMap (fun q => q.1 :: (if q.2 = "" then [] else [q.2])) ≠ [] := by
  rw [List.flatMap_cons]
  simp

theorem joinMap_eq_joinFlat :
    ∀ inner : List (String × String), inner ≠ [] →
      joinWith "\n" (inner.map fun p => p.1 ++ (if p.2 = "" then "" else "\n") ++ p.2) =
        joinL (inner.flatMap fun p => p.1 :: (if p.2 = "" then [] else [p.2]))
  | [], h => absurd rfl h
  | [p], _ => by
    rw [List.map_singleton, List.flatMap_cons]
    by_cases hp : p.2 = ""
    · rw [if_pos hp, if_pos hp, hp]
      show p.1 ++ "" ++ "" = joinL [p.1]
      rw [String.append_empty, String.append_empty]
      rfl
    · rw [if_neg hp, if_neg hp]
      show p.1 ++ "\n" ++ p.2 = joinL [p.1, p.2]
      rfl
  | p :: q :: rest, _ => by
    have ih := joinMap_eq_joinFlat (q :: rest) (by simp)
    rw [List.map_cons, List.flatMap_cons]
    show (p.1 ++ (if p.2 = "" then "" else "\n") ++ p.2) ++ "\n" ++
        joinWith "\n" ((q :: rest).map fun r => r.1 ++ (if r.2 = "" then "" else "\n") ++ r.2) = _
    rw [ih]
    by_cases hp : p.2 = ""
    · rw [if_pos hp, if_pos hp, hp]
      rw [String.append_empty, String.append_empty]
      rw [List.singleton_append]
      exact (joinL_cons_ne p.1 _ (flatMap_lines_ne_nil q rest)).symm
    · rw [if_neg hp, if_neg hp]
      show _ = joinL (p.1 :: p.2 :: ((q :: rest).flatMap fun r => r.1 :: (if r.2 = "" then [] else [r.2])))
      rw [joinL_cons_ne p.1 _ (by simp), joinL_cons_ne p.2 _ (flatMap_lines_ne_nil q rest)]
      simp only [String.append_assoc]

theorem flaggedLines_map_fst (s : SegmentedList) :
    (flaggedLines s).map Prod.fst =
      (if s.first = "" then [] else [s.first]) ++
        s.inner.flatMap fun p => p.1 :: (if p.2 = "" then [] else [p.2]) := by
  rw [flaggedLines, List.map_append]
  congr 1
  · by_cases h : s.first = ""
    · rw [if_pos h, if_pos h]
      rfl
    · rw [if_neg h, if_neg h]
      rfl
  · rw [List.map_flatMap]
    congr 1
    funext p
    by_cases h : p.2 = ""
    · rw [if_pos h, if_pos h]
      rfl
    · rw [if_neg h, if_neg h]
      rfl

/-- The serialized segmented list is the newline-join of its flagged lines. -/
theorem segToString_eq_joinL_flagged (s : SegmentedList) (h : s.inner ≠ []) :
    segToString s = joinL ((flaggedLines s).map Prod.fst) := by
  rw [flaggedLines_map_fst, segToString]
  cases hinner : s.inner with
  | nil => exact absurd hinner h
  | cons p rest =>
    rw [joinMap_eq_joinFlat (p :: rest) (by simp)]
    by_cases hf : s.first = ""
    · rw [if_pos hf, if_pos hf, hf]
      rw [String.empty_append, String.empty_append, List.nil_append]
    · rw [if_neg hf, if_neg hf]
      rw [List.singleton_append]
      rw [joinL_cons_ne s.first _ (flatMap_lines_ne_nil p rest)]

end Clippy

namespace Clippy

/-- C4 input lines: two eligible functions on one physical line. -/
def c4Lines : List String := ["fn a() {} fn b() {}"]

/-- C4 input tree: `fn a` at (1,0) and `fn b` at (1,10), both eligible. -/
def c4Ast : List Item := [Item.fn [] false [] 1 0 [], Item.fn [] false [] 1 10 []]

/-- C4: the tree of the fixed text as it reparses: the one inserted attribute
line attaches to `fn a` (now spanning from the attribute at (1,10)), while
`fn b`, whose insertion was overwritten, is still bare at (2,10). -/
def c4Ast2 : List Item :=
  [Item.fn [⟨.list ["tracing", "instrument"], 1, 1⟩] false [] 1 10 [],
   Item.fn [] false [] 2 10 []]

/-- C4 counterexample: on `fn a() {} fn b() {}` both insertions target the
slot before line 1; the second overwrites the first, so the fixed text
carries one attribute (attached to `fn a`) and `fn b` is still eligible; a
second fix pass inserts for it, so fix∘fix ≠ fix.  The second conjunct
records that `fixL` really is the line decomposition of the fixed text. -/
theorem C4_counterexample :
    applyFixL (fixL c4Lines c4Ast) c4Ast2 ≠ applyFixL c4Lines c4Ast ∧
      applyFixL c4Lines c4Ast = joinL (fixL c4Lines c4Ast) := by
  constructor
  · decide
  · decide

/-- C4 (amended): applying fix twice yields the same text as applying it
once, provided the fixed text reparses with no eligible function remaining
(equivalently, check on the reparse is clean) — which holds whenever no two
eligible functions start on the same physical line; when they do, the later
insertion overwrites the earlier one and the overwritten function remains
unannotated, so a second pass inserts again (see the counterexample). -/
theorem C4_fix_idempotent (L : List String) (ast1 ast2 : List Item)
    (hL : L ≠ [])
    (h2 : checkItems none ast2 = none) :
    applyFixL (fixL L ast1) ast2 = applyFixL L ast1 := by
  have helig : eligList ast2 = [] := (check_none_iff ast2).mp h2
  rw [applyFixL, fixItems_id_of_elig_nil _ _ helig, segToString_initSeg]
  rw [fixL]
  refine (segToString_eq_joinL_flagged _ ?_).symm
  have hlen : (fixItems (initSeg L) ast1).inner.length = L.length := by
    rw [fixItems_length]
    simp [initSeg]
  intro hnil
  rw [hnil] at hlen
  simp at hlen
  exact hL (List.length_eq_zero.mp hlen.symm)

/-- C4 witness: a single `fn main` on one line; after fixing, the reparse is
fully instrumented and the second fix pass is the identity. -/
theorem C4_witness :
    applyFixL (fixL ["fn main() {}"] [Item.fn [] false [] 1 0 []])
        [Item.fn [⟨.list ["tracing", "instrument"], 1, 1⟩] false [] 1 0 []] =
      applyFixL ["fn main() {}"] [Item.fn [] false [] 1 0 []] :=
  C4_fix_idempotent ["fn main() {}"] [Item.fn [] false [] 1 0 []]
    [Item.fn [⟨.list ["tracing", "instrument"], 1, 1⟩] false [] 1 0 []]
    (by decide) (by decide)

end Clippy

namespace Clippy

theorem enumerate_map {A B : Type} (f : A → B) (M : List A) :
    ∀ n, enumerate n (M.map f) = (enumerate n M).map fun p => (p.1, f p.2) := by
  induction M with
  | nil => intro n; rfl
  | cons x xs ih =>
    intro n
    rw [List.map_cons, enumerate, enumerate, ih (n + 1), List.map_cons]

theorem enumerate_filter_unflag {A : Type} :
    ∀ (M : List (A × Bool)) (n : Nat),
      (((enumerate n M).filter fun p => !p.2.2).map fun p => p.2.1) =
        (M.filter fun q => !q.2).map Prod.fst
  | [], _ => rfl
  | q :: rest, n => by
    rw [enumerate, List.filter_cons, List.filter_cons]
    cases hq : q.2 with
    | true =>
      simp only [hq, Bool.not_true, Bool.false_eq_true, if_false]
      exact enumerate_filter_unflag rest (n + 1)
    | false =>
      simp only [hq, Bool.not_false, if_true, List.map_cons]
      rw [enumerate_filter_unflag rest (n + 1)]

theorem flat_filter_unflag :
    ∀ inner : List (String × String),
      ((inner.flatMap fun p => (p.1, false) :: (if p.2 = "" then [] else [(p.2, true)])).filter
          fun q => !q.2) =
        inner.map fun p => (p.1, false)
  | [] => rfl
  | p :: rest => by
    rw [List.flatMap_cons, List.filter_append, List.filter_cons]
    simp only [Bool.not_false, if_true]
    rw [flat_filter_unflag rest, List.map_cons]
    by_cases hp : p.2 = ""
    · rw [if_pos hp]
      rfl
    · rw [if_neg hp]
      rfl

theorem flagged_filter_unflag (s : SegmentedList) :
    ((flaggedLines s).filter fun q => !q.2) = s.inner.map fun p => (p.1, false) := by
  rw [flaggedLines, List.filter_append, flat_filter_unflag]
  have : ((if s.first = "" then [] else [(s.first, true)]).filter fun q : String × Bool => !q.2) = [] := by
    by_cases h : s.first = ""
    · rw [if_pos h]
      rfl
    · rw [if_neg h]
      rfl
  rw [this, List.nil_append]

/-- C3 (amended): for files with no pre-existing instrument annotations and
on which fix makes no structural error — operationalized as: the reparse
`ast2` of the fixed text makes strip remove exactly the inserted annotation
lines (`flagsMatch`) — strip applied to fix's output reproduces the original
text byte-for-byte.  The second conjunct records that the lines strip is run
on are exactly the fixed text's lines. -/
theorem C3_strip_fix_inverse (L : List String) (ast1 ast2 : List Item)
    (hL : L ≠ [])
    (hmatch : flagsMatch ast2 (flaggedLines (fixItems (initSeg L) ast1)) = true) :
    applyStripL (fixL L ast1) ast2 = joinL L ∧
      applyFixL L ast1 = joinL (fixL L ast1) := by
  have hfst : (fixItems (initSeg L) ast1).inner.map Prod.fst = L := by
    rw [fixItems_map_fst, initSeg]
    simp only [List.map_map]
    have : (Prod.fst ∘ fun x : String => (x, ("" : String))) = id := by
      funext x
      rfl
    rw [this, List.map_id]
  have hne : (fixItems (initSeg L) ast1).inner ≠ [] := by
    intro hnil
    rw [hnil] at hfst
    exact hL hfst.symm
  constructor
  · rw [applyStripL, stripItems_eq]
    show joinL _ = _
    rw [fixL, enumerate_map]
    rw [List.filter_map]
    rw [List.map_map]
    have hcomp : (Prod.snd ∘ fun p : Nat × (String × Bool) => (p.1, p.2.1)) =
        fun p : Nat × (String × Bool) => p.2.1 := by
      funext p
      rfl
    rw [hcomp]
    have hfilter : ((enumerate 0 (flaggedLines (fixItems (initSeg L) ast1))).filter
          ((fun p : Nat × String => !removedB ast2 p.1) ∘ fun p => (p.1, p.2.1))) =
        ((enumerate 0 (flaggedLines (fixItems (initSeg L) ast1))).filter
          fun p => !p.2.2) := by
      apply List.filter_congr
      intro p hp
      show (!removedB ast2 p.1) = !p.2.2
      have := List.all_eq_true.mp hmatch p hp
      have hmb : removedB ast2 p.1 = p.2.2 := by
        exact eq_of_beq this
      rw [hmb]
    rw [hfilter, enumerate_filter_unflag, flagged_filter_unflag]
    rw [List.map_map]
    have : (Prod.fst ∘ fun p : String × String => (p.1, false)) = Prod.fst := by
      funext p
      rfl
    rw [this, hfst]
  · rw [applyFixL, fixL]
    exact segToString_eq_joinL_flagged _ hne

/-- C3 witness: a single uninstrumented `fn main`; the fixed text's reparse
strips exactly the inserted line, and the round trip is the identity. -/
theorem C3_witness :
    applyStripL (fixL ["fn main() {}"] [Item.fn [] false [] 1 0 []])
        [Item.fn [⟨.list ["tracing", "instrument"], 1, 1⟩] false [] 1 0 []] =
      joinL ["fn main() {}"] ∧
      applyFixL ["fn main() {}"] [Item.fn [] false [] 1 0 []] =
        joinL (fixL ["fn main() {}"] [Item.fn [] false [] 1 0 []]) :=
  C3_strip_fix_inverse ["fn main() {}"] [Item.fn [] false [] 1 0 []]
    [Item.fn [⟨.list ["tracing", "instrument"], 1, 1⟩] false [] 1 0 []]
    (by decide) (by decide)

/-- C3 input with a pre-existing instrument annotation (lines 1-1) on `fn a`;
the function is already instrumented, so fix is a no-op. -/
def c3Lines : List String := ["#[instrument]", "fn a() {}"]

/-- The tree of `c3Lines`: one function, instrumented, span starting at the
attribute. -/
def c3Ast : List Item := [Item.fn [⟨.path ["instrument"], 1, 1⟩] false [] 1 0 []]

/-- C3 counterexample: on a file that already carries an instrument
annotation, fix completes as a no-op (no structural error — it makes no
edit at all), yet strip applied to fix's output removes the pre-existing
annotation and does not reproduce the input. -/
theorem C3_counterexample :
    applyFixL c3Lines c3Ast = joinL c3Lines ∧
      fixL c3Lines c3Ast = c3Lines ∧
      applyStripL (fixL c3Lines c3Ast) c3Ast ≠ joinL c3Lines := by
  refine ⟨by decide, by decide, by decide⟩

end Clippy
